import Mathlib

/-!
Verification of the SampleGraphRAG repository against its specification.

The Lean definitions below are a shallow embedding of the repository's
Python sources:

* `semantic_text_splitting.py` — the chunk-splitting and analysis toolkit
  (`split_by_topics`, `analyze_chunks`, the sample insurance text);
* `text_splitter.py` — the document loader (module-level environment read
  of `OPENAI_API_KEY`, `load_data`);
* `indexing_pipeline.py` — the five-stage batch pipeline `run()`;
* `app.py` (dashboard v1) and `app2.py` (dashboard v2) — entity-network
  plotting and the main rendering path.

Python strings are modelled as `String` / `List Char`; Python's `str.lower`,
`in` (substring), `str.split('.')`, `str.split()` and slicing are given
explicit executable definitions that follow the documented semantics of
those primitives on the inputs the repository handles (pure ASCII).
Behaviour of external components (the llama-index splitters, the OpenAI
and Neo4j clients, pandas, networkx, plotly, streamlit) is modelled only
to the extent the repository's own control flow depends on it, and each
such modelling point is called out in a doc comment.
-/

set_option maxRecDepth 400000

namespace GraphRAG

/-! ### Python string primitives -/

/-- `startsWithL hay needle`: Python's "string `hay` starts with `needle`"
over explicit character lists. -/
def startsWithL : List Char → List Char → Bool
  | _, [] => true
  | [], _ :: _ => false
  | a :: as, n :: ns => a == n && startsWithL as ns

/-- `hasSub needle hay`: Python's `needle in hay` substring test over
explicit character lists. -/
def hasSub (needle : List Char) : List Char → Bool
  | [] => needle.isEmpty
  | a :: rest => startsWithL (a :: rest) needle || hasSub needle rest

/-- ASCII case folding of one character, as Python's `str.lower` acts on
the ASCII-only strings the repository handles. -/
def asciiLowerChar (c : Char) : Char :=
  if 65 ≤ c.toNat ∧ c.toNat ≤ 90 then Char.ofNat (c.toNat + 32) else c

/-- Python `s.lower()` over a character list (ASCII inputs). -/
def lowerL (s : List Char) : List Char := s.map asciiLowerChar

/-- Python `sep`-separated split, `s.split('.')`-style: always at least one
segment, adjacent separators give empty segments. -/
def splitOnChar (sep : Char) : List Char → List (List Char)
  | [] => [[]]
  | c :: rest =>
    match splitOnChar sep rest with
    | [] => [[]]
    | seg :: segs => if c = sep then [] :: seg :: segs else (c :: seg) :: segs

/-- The characters Python's no-argument `str.split()` treats as whitespace
(space, tab, newline, carriage return, vertical tab, form feed). -/
def pyIsSpace (c : Char) : Bool :=
  c = ' ' || c = '\t' || c = '\n' || c = '\r' || c = '\x0b' || c = '\x0c'

/-- Worker for `pyWords`: `acc` holds the current in-progress word,
reversed. -/
def pyWordsAux (acc : List Char) : List Char → List (List Char)
  | [] => if acc.isEmpty then [] else [acc.reverse]
  | c :: rest =>
    if pyIsSpace c then
      if acc.isEmpty then pyWordsAux [] rest else acc.reverse :: pyWordsAux [] rest
    else pyWordsAux (c :: acc) rest

/-- Python's no-argument `s.split()`: maximal whitespace-free runs, empty
tokens dropped. -/
def pyWords (s : List Char) : List (List Char) := pyWordsAux [] s

/-! ### `semantic_text_splitting.py` — `LlamaIndexTextSplitter.split_by_topics`

`split_by_topics` first obtains base chunks from the llama-index sentence
parser (external), then runs a stateful scan over those base chunks.  The
scan itself is repository code and is embedded faithfully below, taking
the base-chunk list as input. -/

/-- The six fixed topic markers, in the order the code lists them
(`topic_indicators` in `split_by_topics`). -/
def topic_indicators : List String :=
  ["AUTO INSURANCE", "LIFE INSURANCE", "PROPERTY INSURANCE",
   "LIABILITY INSURANCE", "WORKERS COMPENSATION", "HEALTH INSURANCE"]

/-- Python `indicator.lower() in text.lower()`: the case-insensitive
marker test of `split_by_topics`. -/
def markerIn (text ind : String) : Bool :=
  hasSub (lowerL ind.data) (lowerL text.data)

/-- The inner `for indicator in topic_indicators` loop of
`split_by_topics`: every matching indicator overwrites `current_topic`,
so the last listed match wins; with no match the topic is unchanged. -/
def updateTopic (cur : String) (text : String) : String :=
  topic_indicators.foldl (fun c ind => if markerIn text ind then ind else c) cur

/-- `topics[current_topic].append(text)` on a Python dict modelled as an
insertion-ordered association list with unique keys: an existing key keeps
its position and grows its bucket, a new key is appended at the end (this
is `if current_topic not in topics: topics[current_topic] = []` followed
by the append). -/
def insertChunk : List (String × List String) → String → String → List (String × List String)
  | [], t, c => [(t, [c])]
  | (k, v) :: rest, t, c =>
    if k = t then (k, v ++ [c]) :: rest else (k, v) :: insertChunk rest t c

/-- The main `for node in base_nodes` loop of `split_by_topics`: update
the current topic from the chunk's content, then append the chunk to the
current topic's bucket. -/
def splitByTopicsAux : List String → String → List (String × List String) → List (String × List String)
  | [], _, topics => topics
  | c :: cs, cur, topics =>
    let cur' := updateTopic cur c
    splitByTopicsAux cs cur' (insertChunk topics cur' c)

/-- One element of `split_by_topics`' result list: the dicts
`{"topic": ..., "content": ..., "chunk_count": ...}`. -/
structure TopicChunk where
  topic : String
  content : String
  chunk_count : Nat
deriving DecidableEq, Repr

/-- `split_by_topics`, from the base-chunk list onwards: the stateful scan
(initial topic `"General"`, empty dict) followed by the formatting step
(`" ".join(chunks)` and `len(chunks)` per topic, in dict insertion
order). -/
def split_by_topics (baseChunks : List String) : List TopicChunk :=
  (splitByTopicsAux baseChunks "General" []).map
    (fun p => ⟨p.1, String.intercalate " " p.2, p.2.length⟩)

/-- The fixed sample text of `process_insurance_text`, exactly as the
Python source writes it (a triple-quoted literal with four-space
indentation). -/
def insurance_sample_text : String :=
  "\n    AUTO INSURANCE\n    Auto insurance protects against financial loss in the event of an accident. \n    It is a contract between the policyholder and the insurance company.\n    \n    LIFE INSURANCE\n    Life insurance provides financial protection to beneficiaries upon the death of the insured.\n    There are two main types: term and whole life insurance.\n    \n    PROPERTY INSURANCE\n    Property insurance covers damage to property from various perils.\n    This includes coverage for homes, businesses, and other structures.\n    "

/-- Modelled from the spec: the base chunking that `split_by_topics`
applies before its topic scan is llama-index's sentence parser (external
code, not in the repository), which per §4.2 "splits text at sentence
boundaries while respecting the same size/overlap targets".
`process_insurance_text` configures `chunk_size = 512` tokens, and the
sample text is about 130 tokens — far below the size target — so the
sentence parser packs the whole sample into a single base chunk. -/
def sample_base_chunks : List String := [insurance_sample_text]

/-! ### `semantic_text_splitting.py` — `analyze_chunks` -/

/-- One row of the analysis DataFrame built by `analyze_chunks`. -/
structure ChunkAnalysis where
  chunk_id : Nat
  length : Nat
  sentences : Nat
  words : Nat
  preview : String
deriving DecidableEq, Repr

/-- The record `analyze_chunks` builds for chunk number `i`:
`len(chunk)`, `len(chunk.split('.'))`, `len(chunk.split())`, and
`chunk[:100] + "..."`. -/
def analyzeOne (i : Nat) (chunk : String) : ChunkAnalysis :=
  { chunk_id := i
    length := chunk.data.length
    sentences := (splitOnChar '.' chunk.data).length
    words := (pyWords chunk.data).length
    preview := String.mk (chunk.data.take 100) ++ "..." }

/-- The `for i, chunk in enumerate(chunks)` loop of `analyze_chunks`. -/
def analyzeChunksAux (i : Nat) : List String → List ChunkAnalysis
  | [] => []
  | c :: cs => analyzeOne i c :: analyzeChunksAux (i + 1) cs

/-- `analyze_chunks(chunks)`: one analysis record per chunk, in input
order, indices from 0. -/
def analyze_chunks (chunks : List String) : List ChunkAnalysis :=
  analyzeChunksAux 0 chunks

/-! ### `text_splitter.py` — module initialisation and `TextSplitter.load_data`

The module reads `os.environ['OPENAI_API_KEY']` at import time (after
`load_dotenv()`), so a missing key raises before `load_data` can run; the
directory reader and the semantic splitter are external llama-index /
OpenAI components, modelled as parameters. -/

/-- The failure the loader surfaces when configuration is missing
(Python's `KeyError` on `os.environ`, the spec's ConfigurationError). -/
inductive LoaderError where
  | configurationError (key : String)
deriving DecidableEq, Repr

/-- `openai_api_key = os.environ['OPENAI_API_KEY']` at module import time:
the process environment (post-`load_dotenv`) is a partial map, and a
missing key is an error raised before any other statement of the module
body runs. -/
def module_openai_api_key (env : String → Option String) : Except LoaderError String :=
  match env "OPENAI_API_KEY" with
  | none => .error (.configurationError "OPENAI_API_KEY")
  | some k => .ok k

/-- `TextSplitter.load_data`: requires the module-level key read to have
succeeded, then reads the documents (`SimpleDirectoryReader`, external,
modelled by `readDocs`) and splits them into nodes with the key-bearing
embedding model (`SemanticSplitterNodeParser`, external, modelled by
`splitNodes key docs`). -/
def load_data (env : String → Option String) (readDocs : List String)
    (splitNodes : String → List String → List String) :
    Except LoaderError (List String) := do
  let key ← module_openai_api_key env
  .ok (splitNodes key readDocs)

/-! ### `indexing_pipeline.py` — `run()`

The five pipeline components (`TextSplitter`, `GraphExtractor`,
`GraphResolver`, `CommunitySummarizer`, `DataIndexer`) live outside this
repository's files except the loader; `run()` only wires them together,
so their behaviours are opaque parameters and `run` is embedded with an
event trace recording which stage ran on which data. -/

/-- The behaviours of the five components `run()` constructs, over opaque
node/entity/relationship/summary/index types. -/
structure PipelineComponents (N E R S X : Type) where
  loadData : List N
  extractNodes : List N → List N
  resolveNodes : List N → List E × List R
  summarizerRun : List E → List R → S
  insertData : List E → List R → X

/-- One observed stage call of the pipeline, with the data it consumed
and produced. -/
inductive StageEvent (N E R : Type) where
  | loadCall (out : List N)
  | extractCall (input : List N) (out : List N)
  | resolveCall (input : List N) (outEntities : List E) (outRels : List R)
  | summarizeCall (entities : List E) (rels : List R)
  | indexCall (entities : List E) (rels : List R)
deriving DecidableEq, Repr

/-- `run()` of `indexing_pipeline.py`: straight-line code — load, extract
the loaded nodes, resolve the extracted nodes, summarize the resolved
entities/relationships, index the same entities/relationships — returning
the side results and the trace of stage calls in execution order. -/
def pipeline_run {N E R S X : Type} (comp : PipelineComponents N E R S X) :
    (S × X) × List (StageEvent N E R) :=
  let nodes0 := comp.loadData
  let nodes1 := comp.extractNodes nodes0
  let er := comp.resolveNodes nodes1
  let s := comp.summarizerRun er.1 er.2
  let x := comp.insertData er.1 er.2
  ((s, x),
    [.loadCall nodes0, .extractCall nodes0 nodes1, .resolveCall nodes1 er.1 er.2,
     .summarizeCall er.1 er.2, .indexCall er.1 er.2])

/-! ### Dashboards (`app.py`, `app2.py`) — shared entity/edge structure -/

/-- A retrieved entity as the dashboards consume it: `e.name`, `e.type`
(v1 colouring) and the display label v2 reads from `e.metadata` (with
`'Unknown'` as its default). -/
structure Entity where
  name : String
  etype : String
  label : String
deriving DecidableEq, Repr

/-- One row of the `edges` DataFrame both dashboards build:
`{"source": ..., "target": ..., "weight": ...}` (weight `1` in v1, a
random float in v2, so the weight type is a parameter). -/
structure EdgeRow (W : Type) where
  source : String
  target : String
  weight : W
deriving DecidableEq, Repr

/-- The shared double loop
`for i, e1 in enumerate(entities): for e2 in entities[i+1:]`: all ordered
pairs of list positions `i < j`, in loop order. -/
def pairEdges {α : Type} : List α → List (α × α)
  | [] => []
  | e :: rest => rest.map (fun e2 => (e, e2)) ++ pairEdges rest

/-- The `edges` rows of dashboard v1's `plot_entity_network`: one row per
pair, weight `1`. -/
def edgesV1 (entities : List Entity) : List (EdgeRow Nat) :=
  (pairEdges entities).map (fun p => ⟨p.1.name, p.2.name, 1⟩)

/-- The `edges` rows of dashboard v2's `plot_entity_network`: one row per
pair in the same loop order; the `k`-th row's weight is the `k`-th draw of
`random.uniform(1, 3)` (external randomness, modelled as the stream
`w`). -/
def edgesV2 {W : Type} (w : Nat → W) (entities : List Entity) : List (EdgeRow W) :=
  (pairEdges entities).enum.map (fun p => ⟨p.2.1.name, p.2.2.name, w p.1⟩)

/-! ### Dashboard v1 (`app.py`) -/

/-- One row of v1's `nodes` DataFrame: `{"id": e.name, "type": e.type}`. -/
structure NodeRowV1 where
  id : String
  ntype : String
deriving DecidableEq, Repr

/-- The `px.scatter_3d` figure v1 builds: per-row coordinate columns
`x = y = z = [0]*len(nodes)`, text column `"id"`, colour column
`"type"`. -/
structure Fig3D where
  xs : List Int
  ys : List Int
  zs : List Int
  text : List String
  color : List String
deriving DecidableEq, Repr

/-- Dashboard v1's `plot_entity_network(entities)`: builds nodes and
edges; only `if not edges.empty` does it build and chart the 3-D scatter
(so with fewer than two entities no figure is charted and the call
returns without effect). -/
def plot_entity_network_v1 (entities : List Entity) : Option Fig3D :=
  let nodes : List NodeRowV1 := entities.map (fun e => ⟨e.name, e.etype⟩)
  let edges := edgesV1 entities
  if edges.isEmpty then none
  else
    some { xs := List.replicate nodes.length 0
           ys := List.replicate nodes.length 0
           zs := List.replicate nodes.length 0
           text := nodes.map NodeRowV1.id
           color := nodes.map NodeRowV1.ntype }

/-- What dashboard v1's `render_main` emits to the page, in order. -/
inductive RenderItemV1 where
  | answer (text : String)
  | networkChart (fig : Fig3D)
  | sourceItem (index : Nat) (summary : String)
deriving DecidableEq, Repr

/-- The `for i, summary in enumerate(summaries, 1)` loop of both
dashboards' sources column: one expander per summary, numbered from 1. -/
def sourceItemsV1 (summaries : List String) : List RenderItemV1 :=
  summaries.enum.map (fun p => .sourceItem (p.1 + 1) p.2)

/-- Dashboard v1's `render_main` after the text input: nothing happens on
an empty query (`if query:`); otherwise the generator's answer is
written, then `if entities:` the network plot is attempted (charting only
when it produced a figure), then the numbered sources.  The generator
results (`generate`, `get_entities`, `get_community_summaries`) are
external and enter as parameters. -/
def render_main_v1 (query response : String) (entities : List Entity)
    (summaries : List String) : List RenderItemV1 :=
  if query = "" then []
  else
    [.answer response] ++
      (if entities.isEmpty then []
       else
         match plot_entity_network_v1 entities with
         | none => []
         | some fig => [.networkChart fig]) ++
      sourceItemsV1 summaries

/-! ### Dashboard v2 (`app2.py`) -/

/-- One row of v2's `nodes` DataFrame: `{"id": e.name, "label": ...,
"size": random.randint(20, 40)}`; the random sizes are modelled as the
stream `sizes` indexed by the entity's position. -/
structure NodeRowV2 where
  id : String
  label : String
  size : Nat
deriving DecidableEq, Repr

/-- `firstOccAux seen l`: the elements of `l` not in `seen`, keeping only
each element's first occurrence, in order. -/
def firstOccAux (seen : List String) : List String → List String
  | [] => []
  | t :: ts => if t ∈ seen then firstOccAux seen ts else t :: firstOccAux (t :: seen) ts

/-- First occurrences of a list's elements, in order of appearance
(networkx's node set keeps insertion order; also the insertion order of a
Python dict's keys). -/
def firstOcc (l : List String) : List String := firstOccAux [] l

/-- The node list of `nx.from_pandas_edgelist(edges, 'source', 'target')`
on a non-empty edge table: the edge endpoints, source before target per
row, first occurrences in insertion order. -/
def graphNodes {W : Type} (edges : List (EdgeRow W)) : List String :=
  firstOcc (edges.flatMap (fun ed => [ed.source, ed.target]))

/-- `nodes[nodes['id'] == node]['size'].iloc[0]`: the `size` of the first
`nodes` row whose `id` matches (every graph node comes from an entity, so
a match exists; `0` stands in for the out-of-domain case `iloc[0]` would
raise on). -/
def lookupSize (rows : List NodeRowV2) (node : String) : Nat :=
  ((rows.filter (fun r => r.id = node)).head?.map NodeRowV2.size).getD 0

/-- How v2's `plot_entity_network` fails: `pd.DataFrame` of an empty list
has no columns at all, and `nx.from_pandas_edgelist(edges, 'source',
'target')` then raises a `KeyError` for the missing `'source'` column. -/
inductive PlotError where
  | missingColumn (col : String)
deriving DecidableEq, Repr

/-- The plotly figure v2 builds: one line trace per edge (endpoint
positions from the spring layout, line width from the edge weight), then
one marker trace over the graph's nodes (positions, labels, sizes looked
up in the `nodes` DataFrame).  Spring-layout positions are external
floating-point output, modelled as the opaque assignment `pos`. -/
structure FigV2 (W P : Type) where
  edgeSegments : List (P × P × W)
  nodeXY : List P
  nodeText : List String
  nodeSizes : List Nat
deriving DecidableEq, Repr

/-- Dashboard v2's `plot_entity_network(entities)`: builds the `nodes`
rows (label defaulting to `'Unknown'` is already folded into
`Entity.label`) and the `edges` rows, then hands the edge table to
networkx — which raises on the empty, column-less table — and otherwise
assembles the figure. -/
def plot_entity_network_v2 {W P : Type} (w : Nat → W) (sizes : Nat → Nat)
    (pos : String → P) (entities : List Entity) : Except PlotError (FigV2 W P) :=
  let nodes : List NodeRowV2 :=
    entities.enum.map (fun p => ⟨p.2.name, p.2.label, sizes p.1⟩)
  let edges := edgesV2 w entities
  if edges.isEmpty then .error (.missingColumn "source")
  else
    let gnodes := graphNodes edges
    .ok { edgeSegments := edges.map (fun ed => (pos ed.source, pos ed.target, ed.weight))
          nodeXY := gnodes.map pos
          nodeText := gnodes
          nodeSizes := gnodes.map (lookupSize nodes) }

/-- What dashboard v2's `render_main` emits, in order: the answer tab's
text, the related-concepts tab's chart and entity-name badges, the
sources tab's numbered expanders. -/
inductive RenderItemV2 (W P : Type) where
  | answer (text : String)
  | networkChart (fig : FigV2 W P)
  | termBadge (name : String)
  | sourceItem (index : Nat) (summary : String)
deriving DecidableEq, Repr

/-- v2's `for i, summary in enumerate(summaries, 1)` sources loop. -/
def sourceItemsV2 {W P : Type} (summaries : List String) : List (RenderItemV2 W P) :=
  summaries.enum.map (fun p => .sourceItem (p.1 + 1) p.2)

/-- Dashboard v2's `render_main` after the text input: nothing on an
empty query; otherwise the answer tab renders, then `if entities:` the
network plot runs inside the related-concepts tab — an exception there
aborts the rest of the render (the items emitted so far stay on the page,
the error surfaces) — and on success the badges and sources follow. -/
def render_main_v2 {W P : Type} (w : Nat → W) (sizes : Nat → Nat)
    (pos : String → P) (query response : String) (entities : List Entity)
    (summaries : List String) : List (RenderItemV2 W P) × Option PlotError :=
  if query = "" then ([], none)
  else
    if entities.isEmpty then ([RenderItemV2.answer response] ++ sourceItemsV2 summaries, none)
    else
      match plot_entity_network_v2 w sizes pos entities with
      | .error err => ([RenderItemV2.answer response], some err)
      | .ok fig =>
          ([RenderItemV2.answer response] ++ [.networkChart fig] ++
             entities.map (fun e => .termBadge e.name) ++ sourceItemsV2 summaries, none)

/-! ### Spec-side reading of the topic scan

The specification (§4.2, §9) describes `split_by_topics` as a single
stateful pass that assigns every chunk the topic that is current *after*
scanning that chunk.  The following definitions state that reading
independently of the bucket dictionary, to be compared with the
embedding above. -/

/-- The spec's single pass: each chunk is paired with the topic current
after scanning it; the updated topic is carried to the next chunk. -/
def assignTopics : String → List String → List (String × String)
  | _, [] => []
  | cur, c :: cs =>
    let cur' := updateTopic cur c
    (c, cur') :: assignTopics cur' cs

/-- The chunks a given topic absorbs, in order, per the spec's reading. -/
def chunksFor (t : String) (asn : List (String × String)) : List String :=
  (asn.filter (fun p => p.2 = t)).map Prod.fst

/-- The keys of the bucket dictionary, in insertion order. -/
def keysOf (topics : List (String × List String)) : List String :=
  topics.map Prod.fst

/-- The bucket stored under a key (first match; keys are unique by
construction), `[]` when the key is absent. -/
def bucketOf (t : String) : List (String × List String) → List String
  | [] => []
  | (k, v) :: rest => if k = t then v else bucketOf t rest

/-! ### Concrete inputs used to witness the theorems below -/

/-- A concrete retrieved entity. -/
def entA : Entity := ⟨"Auto Insurance", "Coverage", "Unknown"⟩

/-- A second concrete retrieved entity with a distinct name. -/
def entB : Entity := ⟨"Premium", "Term", "Unknown"⟩

/-- A third concrete retrieved entity with a distinct name. -/
def entC : Entity := ⟨"Deductible", "Term", "Unknown"⟩

/-! ## Theorems -/

/-- C1: the indexing pipeline's `run()` executes the five stages strictly
in order — load, then extract, then resolve, then the summarizer's run on
the resolved entities and relationships, then the indexer's `insert_data`
on the same entities and relationships — with each stage consuming the
immediately preceding stage's output and no stage skipped or reordered. -/
theorem pipeline_run_stage_order {N E R S X : Type}
    (comp : PipelineComponents N E R S X) :
    pipeline_run comp =
      ((comp.summarizerRun (comp.resolveNodes (comp.extractNodes comp.loadData)).1
          (comp.resolveNodes (comp.extractNodes comp.loadData)).2,
        comp.insertData (comp.resolveNodes (comp.extractNodes comp.loadData)).1
          (comp.resolveNodes (comp.extractNodes comp.loadData)).2),
       [StageEvent.loadCall comp.loadData,
        StageEvent.extractCall comp.loadData (comp.extractNodes comp.loadData),
        StageEvent.resolveCall (comp.extractNodes comp.loadData)
          (comp.resolveNodes (comp.extractNodes comp.loadData)).1
          (comp.resolveNodes (comp.extractNodes comp.loadData)).2,
        StageEvent.summarizeCall (comp.resolveNodes (comp.extractNodes comp.loadData)).1
          (comp.resolveNodes (comp.extractNodes comp.loadData)).2,
        StageEvent.indexCall (comp.resolveNodes (comp.extractNodes comp.loadData)).1
          (comp.resolveNodes (comp.extractNodes comp.loadData)).2]) := rfl

/-- C6: when `OPENAI_API_KEY` is absent from the process environment, the
document loader fails with the configuration error before any data is
loaded — for every possible document set and splitter behaviour the
result is that error, so `load_data` never returns a node sequence. -/
theorem load_data_missing_credential (env : String → Option String)
    (readDocs : List String) (splitNodes : String → List String → List String)
    (h : env "OPENAI_API_KEY" = none) :
    load_data env readDocs splitNodes = .error (.configurationError "OPENAI_API_KEY") ∧
    ∀ nodes, load_data env readDocs splitNodes ≠ .ok nodes := by
  have hkey : module_openai_api_key env = .error (.configurationError "OPENAI_API_KEY") := by
    simp [module_openai_api_key, h]
  have hload : load_data env readDocs splitNodes =
      .error (.configurationError "OPENAI_API_KEY") := by
    unfold load_data
    rw [hkey]
    rfl
  exact ⟨hload, fun nodes h' => by rw [hload] at h'; exact Except.noConfusion h'⟩

/-- Witness for C6 at a concrete input: the empty environment, an empty
corpus and a trivial splitter. -/
theorem load_data_missing_credential_witness :
    load_data (fun _ => none) [] (fun _ _ => []) =
        .error (.configurationError "OPENAI_API_KEY") ∧
    ∀ nodes, load_data (fun _ => none) [] (fun _ _ => []) ≠ .ok nodes :=
  load_data_missing_credential (fun _ => none) [] (fun _ _ => []) rfl

/-- C9: in dashboard v2, a query retrieving exactly one entity passes the
non-emptiness guard of `render_main`, so `plot_entity_network` is called;
it then fails on the empty, column-less edge table (`KeyError` for
`'source'` in `nx.from_pandas_edgelist`) instead of rendering a
single-node graph — the graph-rendering error branch is reachable from
the public query interface, aborting the render after the answer tab. -/
theorem v2_single_entity_plot_error {W P : Type} (w : Nat → W)
    (sizes : Nat → Nat) (pos : String → P) (query response : String)
    (e : Entity) (summaries : List String) (hq : query ≠ "") :
    ([e] ≠ ([] : List Entity)) ∧
    plot_entity_network_v2 w sizes pos [e] = .error (.missingColumn "source") ∧
    render_main_v2 w sizes pos query response [e] summaries =
      ([RenderItemV2.answer response], some (PlotError.missingColumn "source")) := by
  have hplot : plot_entity_network_v2 w sizes pos [e] =
      .error (.missingColumn "source") := by
    simp [plot_entity_network_v2, edgesV2, pairEdges]
  refine ⟨by simp, hplot, ?_⟩
  simp [render_main_v2, hq, hplot]

/-- Witness for C9 at a concrete input: the query `"q"`, one entity, no
summaries. -/
theorem v2_single_entity_plot_error_witness :
    ([entA] ≠ ([] : List Entity)) ∧
    plot_entity_network_v2 (fun _ => (0 : Nat)) (fun _ => 0) (fun _ => (0 : Nat)) [entA] =
      .error (.missingColumn "source") ∧
    render_main_v2 (fun _ => (0 : Nat)) (fun _ => 0) (fun _ => (0 : Nat)) "q" "a" [entA] [] =
      ([RenderItemV2.answer "a"], some (PlotError.missingColumn "source")) :=
  v2_single_entity_plot_error (fun _ => 0) (fun _ => 0) (fun _ => 0) "q" "a" entA []
    (by decide)

/-- C7: for a (non-empty) query whose retrieval returns zero entities,
neither dashboard variant renders the entity-network panel — no network
chart item appears and no plotting error is raised — while the answer is
still rendered (followed by the sources list). -/
theorem zero_entities_suppresses_network {W P : Type} (w : Nat → W)
    (sizes : Nat → Nat) (pos : String → P) (query response : String)
    (summaries : List String) (hq : query ≠ "") :
    render_main_v1 query response [] summaries =
      [RenderItemV1.answer response] ++ sourceItemsV1 summaries ∧
    (∀ fig, RenderItemV1.networkChart fig ∉ render_main_v1 query response [] summaries) ∧
    RenderItemV1.answer response ∈ render_main_v1 query response [] summaries ∧
    render_main_v2 w sizes pos query response [] summaries =
      ([RenderItemV2.answer response] ++ sourceItemsV2 summaries, none) ∧
    (∀ fig, RenderItemV2.networkChart fig ∉
      (render_main_v2 w sizes pos query response [] summaries).1) ∧
    RenderItemV2.answer response ∈ (render_main_v2 w sizes pos query response [] summaries).1 := by
  have h1 : render_main_v1 query response [] summaries =
      [RenderItemV1.answer response] ++ sourceItemsV1 summaries := by
    simp [render_main_v1, hq]
  have h2 : render_main_v2 (W := W) (P := P) w sizes pos query response [] summaries =
      ([RenderItemV2.answer response] ++ sourceItemsV2 summaries, none) := by
    simp [render_main_v2, hq]
  refine ⟨h1, ?_, ?_, h2, ?_, ?_⟩
  · intro fig
    rw [h1]
    simp [sourceItemsV1]
  · rw [h1]; simp
  · intro fig
    rw [h2]
    simp [sourceItemsV2]
  · rw [h2]; simp

/-- Witness for C7 at a concrete input: the query `"q"`, no retrieved
entities, one summary. -/
theorem zero_entities_suppresses_network_witness :
    render_main_v1 "q" "a" [] ["s"] =
      [RenderItemV1.answer "a"] ++ sourceItemsV1 ["s"] ∧
    (∀ fig, RenderItemV1.networkChart fig ∉ render_main_v1 "q" "a" [] ["s"]) ∧
    RenderItemV1.answer "a" ∈ render_main_v1 "q" "a" [] ["s"] ∧
    render_main_v2 (fun _ => (0 : Nat)) (fun _ => 0) (fun _ => (0 : Nat)) "q" "a" [] ["s"] =
      ([RenderItemV2.answer "a"] ++ sourceItemsV2 ["s"], none) ∧
    (∀ fig, RenderItemV2.networkChart fig ∉
      (render_main_v2 (fun _ => (0 : Nat)) (fun _ => 0) (fun _ => (0 : Nat)) "q" "a" [] ["s"]).1) ∧
    RenderItemV2.answer "a" ∈
      (render_main_v2 (fun _ => (0 : Nat)) (fun _ => 0) (fun _ => (0 : Nat)) "q" "a" [] ["s"]).1 :=
  zero_entities_suppresses_network (fun _ => 0) (fun _ => 0) (fun _ => 0) "q" "a" ["s"]
    (by decide)

/-- C8: in dashboard v1, whenever the network plot is produced, every
entity is plotted at the origin — the x, y and z coordinate columns are
all-zero lists with one entry per entity — and the entities are
differentiated only by a colour keyed to their type and a text label
equal to their name. -/
theorem v1_network_plot_degenerate (es : List Entity) (fig : Fig3D)
    (h : plot_entity_network_v1 es = some fig) :
    fig.xs.length = es.length ∧ fig.ys.length = es.length ∧
    fig.zs.length = es.length ∧
    (∀ x ∈ fig.xs, x = 0) ∧ (∀ y ∈ fig.ys, y = 0) ∧ (∀ z ∈ fig.zs, z = 0) ∧
    fig.text = es.map Entity.name ∧ fig.color = es.map Entity.etype := by
  unfold plot_entity_network_v1 at h
  by_cases he : (edgesV1 es).isEmpty
  · simp [he] at h
  · simp [he] at h
    subst h
    exact ⟨by simp, by simp, by simp,
      fun x hx => List.eq_of_mem_replicate hx,
      fun y hy => List.eq_of_mem_replicate hy,
      fun z hz => List.eq_of_mem_replicate hz, by simp, by simp⟩

/-- Witness for C8 at a concrete input: two entities, whose plot is the
figure with both points at the origin. -/
theorem v1_network_plot_degenerate_witness :
    ([0, 0] : List Int).length = [entA, entB].length ∧
    ([0, 0] : List Int).length = [entA, entB].length ∧
    ([0, 0] : List Int).length = [entA, entB].length ∧
    (∀ x ∈ ([0, 0] : List Int), x = 0) ∧ (∀ y ∈ ([0, 0] : List Int), y = 0) ∧
    (∀ z ∈ ([0, 0] : List Int), z = 0) ∧
    (["Auto Insurance", "Premium"] = [entA, entB].map Entity.name) ∧
    (["Coverage", "Term"] = [entA, entB].map Entity.etype) :=
  v1_network_plot_degenerate [entA, entB]
    ⟨[0, 0], [0, 0], [0, 0], ["Auto Insurance", "Premium"], ["Coverage", "Term"]⟩
    (by decide)

/-! ### The complete-graph edge construction (C2) -/

/-- Twice the number of pairs the double loop emits is `n · (n − 1)`. -/
theorem pairEdges_length {α : Type} (l : List α) :
    2 * (pairEdges l).length = l.length * (l.length - 1) := by
  induction l with
  | nil => rfl
  | cons e rest ih =>
    have h : (pairEdges (e :: rest)).length = rest.length + (pairEdges rest).length := by
      simp [pairEdges]
    rw [List.length_cons, h, Nat.mul_add, ih]
    generalize rest.length = n
    cases n with
    | zero => rfl
    | succ k =>
      simp only [Nat.add_sub_cancel]
      ring

/-- The double loop emits exactly the pairs whose first component occurs
strictly before the second in the entity list. -/
theorem mem_pairEdges {α : Type} (l : List α) (a b : α) :
    (a, b) ∈ pairEdges l ↔ [a, b].Sublist l := by
  induction l with
  | nil => simp [pairEdges]
  | cons e rest ih =>
    simp only [pairEdges, List.mem_append, List.mem_map, ih]
    constructor
    · rintro (⟨e2, he2, heq⟩ | hs)
      · cases heq
        exact List.cons_sublist_cons.mpr (List.singleton_sublist.mpr he2)
      · exact hs.cons e
    · intro hs
      cases hs with
      | cons _ h => exact Or.inr h
      | cons₂ _ h => exact Or.inl ⟨b, List.singleton_sublist.mp h, rfl⟩

/-- With pairwise-distinct entity names, no two emitted edges share the
same (source, target) name pair. -/
theorem pairEdges_namePairs_nodup (es : List Entity)
    (h : (es.map Entity.name).Nodup) :
    ((pairEdges es).map (fun p => (p.1.name, p.2.name))).Nodup := by
  induction es with
  | nil => simp [pairEdges]
  | cons e rest ih =>
    simp only [List.map_cons, List.nodup_cons] at h
    obtain ⟨hnotin, hrest⟩ := h
    simp only [pairEdges, List.map_append, List.map_map]
    refine List.Nodup.append ?_ (ih hrest) ?_
    · have heq : rest.map ((fun p : Entity × Entity => (p.1.name, p.2.name)) ∘
          (fun e2 => (e, e2))) = (rest.map Entity.name).map (fun n => (e.name, n)) := by
        simp [List.map_map]
      rw [heq]
      exact hrest.map (fun n₁ n₂ hn => by simpa using hn)
    · intro x hx hx'
      simp only [List.mem_map, Function.comp] at hx hx'
      obtain ⟨e2, _, rfl⟩ := hx
      obtain ⟨p, hp, hpx⟩ := hx'
      have hmem : p.1 ∈ rest := by
        have hs : [p.1, p.2].Sublist rest := (mem_pairEdges rest p.1 p.2).mp hp
        exact hs.subset (by simp)
      have : p.1.name = e.name := (Prod.mk.injEq _ _ _ _).mp hpx.symm |>.1.symm
      exact hnotin (this ▸ List.mem_map_of_mem Entity.name hmem)

/-- Two distinct members of a list occur in one of the two relative
orders as a two-element sublist. -/
theorem sublist_pair_of_mem {α : Type} (l : List α) (a b : α)
    (ha : a ∈ l) (hb : b ∈ l) (hab : a ≠ b) :
    [a, b].Sublist l ∨ [b, a].Sublist l := by
  induction l with
  | nil => cases ha
  | cons x rest ih =>
    by_cases hax : a = x
    · subst hax
      have hb' : b ∈ rest := by
        cases List.mem_cons.mp hb with
        | inl h => exact absurd h.symm hab
        | inr h => exact h
      exact Or.inl (List.cons_sublist_cons.mpr (List.singleton_sublist.mpr hb'))
    · by_cases hbx : b = x
      · subst hbx
        have ha' : a ∈ rest := by
          cases List.mem_cons.mp ha with
          | inl h => exact absurd h hax
          | inr h => exact h
        exact Or.inr (List.cons_sublist_cons.mpr (List.singleton_sublist.mpr ha'))
      · have ha' : a ∈ rest := by
          cases List.mem_cons.mp ha with
          | inl h => exact absurd h hax
          | inr h => exact h
        have hb' : b ∈ rest := by
          cases List.mem_cons.mp hb with
          | inl h => exact absurd h hbx
          | inr h => exact h
        exact (ih ha' hb').imp (List.Sublist.cons x) (List.Sublist.cons x)

/-- The v2 edge rows project to the same (source, target) name pairs as
the shared double loop (the random weights and their indices drop out). -/
theorem edgesV2_namePairs {W : Type} (w : Nat → W) (es : List Entity) :
    (edgesV2 w es).map (fun ed => (ed.source, ed.target)) =
      (pairEdges es).map (fun p => (p.1.name, p.2.name)) := by
  unfold edgesV2
  rw [List.map_map]
  have heq : ((fun ed : EdgeRow W => (ed.source, ed.target)) ∘
      fun p : Nat × (Entity × Entity) => EdgeRow.mk p.2.1.name p.2.2.name (w p.1)) =
      (fun p : Entity × Entity => (p.1.name, p.2.name)) ∘ Prod.snd := rfl
  rw [heq, ← List.map_map, List.enum_map_snd]

/-- C2: for every list of `N ≥ 2` retrieved entities with pairwise-distinct
names, the network-visualization construction of both dashboard variants
builds exactly `N·(N−1)/2` edges — no two edges share a name pair, and
every unordered pair of distinct retrieved names is connected — with no
reference to the stored knowledge-graph relationships (which do not even
enter the construction). -/
theorem dashboard_edges_complete_graph {W : Type} (w : Nat → W)
    (es : List Entity) (_h2 : 2 ≤ es.length)
    (hnd : (es.map Entity.name).Nodup) :
    (edgesV1 es).length = es.length * (es.length - 1) / 2 ∧
    (edgesV2 w es).length = es.length * (es.length - 1) / 2 ∧
    ((edgesV1 es).map (fun ed => (ed.source, ed.target))).Nodup ∧
    ((edgesV2 w es).map (fun ed => (ed.source, ed.target))).Nodup ∧
    ∀ a b, a ∈ es → b ∈ es → a.name ≠ b.name →
      (a.name, b.name) ∈ (edgesV1 es).map (fun ed => (ed.source, ed.target)) ∨
      (b.name, a.name) ∈ (edgesV1 es).map (fun ed => (ed.source, ed.target)) := by
  have hv1 : (edgesV1 es).map (fun ed => (ed.source, ed.target)) =
      (pairEdges es).map (fun p => (p.1.name, p.2.name)) := by
    unfold edgesV1
    rw [List.map_map]
    rfl
  have hlen : (pairEdges es).length = es.length * (es.length - 1) / 2 := by
    have := pairEdges_length es
    omega
  refine ⟨?_, ?_, ?_, ?_, ?_⟩
  · simpa [edgesV1] using hlen
  · simpa [edgesV2] using hlen
  · rw [hv1]; exact pairEdges_namePairs_nodup es hnd
  · rw [edgesV2_namePairs]; exact pairEdges_namePairs_nodup es hnd
  · intro a b ha hb hab
    rw [hv1]
    have hne : a ≠ b := fun h => hab (by rw [h])
    cases sublist_pair_of_mem es a b ha hb hne with
    | inl hs =>
        exact Or.inl (List.mem_map_of_mem _ ((mem_pairEdges es a b).mpr hs))
    | inr hs =>
        exact Or.inr (List.mem_map_of_mem _ ((mem_pairEdges es b a).mpr hs))

/-- Witness for C2 at a concrete input: two entities with distinct names
give exactly one edge in each variant, and the one unordered pair is
connected. -/
theorem dashboard_edges_complete_graph_witness :
    (edgesV1 [entA, entB]).length = [entA, entB].length * ([entA, entB].length - 1) / 2 ∧
    (edgesV2 (fun _ => (0 : Nat)) [entA, entB]).length =
      [entA, entB].length * ([entA, entB].length - 1) / 2 ∧
    ((edgesV1 [entA, entB]).map (fun ed => (ed.source, ed.target))).Nodup ∧
    ((edgesV2 (fun _ => (0 : Nat)) [entA, entB]).map
      (fun ed => (ed.source, ed.target))).Nodup ∧
    ∀ a b, a ∈ [entA, entB] → b ∈ [entA, entB] → a.name ≠ b.name →
      (a.name, b.name) ∈ (edgesV1 [entA, entB]).map (fun ed => (ed.source, ed.target)) ∨
      (b.name, a.name) ∈ (edgesV1 [entA, entB]).map (fun ed => (ed.source, ed.target)) :=
  dashboard_edges_complete_graph (fun _ => 0) [entA, entB] (by decide) (by decide)

/-! ### The stateful topic scan (C3, C4) -/

/-- Appending a chunk under key `t'` extends exactly the bucket of `t'`
and leaves every other bucket unchanged. -/
theorem bucketOf_insertChunk (topics : List (String × List String))
    (t t' c : String) :
    bucketOf t (insertChunk topics t' c) =
      if t = t' then bucketOf t topics ++ [c] else bucketOf t topics := by
  induction topics with
  | nil =>
    by_cases h : t = t'
    · subst h; simp [insertChunk, bucketOf]
    · simp [insertChunk, bucketOf, h, Ne.symm h]
  | cons kv rest ih =>
    obtain ⟨k, v⟩ := kv
    by_cases hk : k = t' <;> by_cases ht : t = t' <;> by_cases htk : k = t <;>
      simp_all [insertChunk, bucketOf]

/-- Running the scan on top of an existing dictionary appends, to each
key's bucket, exactly the chunks the spec-side pass assigns to that
key. -/
theorem bucketOf_splitByTopicsAux (cs : List String) :
    ∀ (cur : String) (topics : List (String × List String)) (t : String),
    bucketOf t (splitByTopicsAux cs cur topics) =
      bucketOf t topics ++ chunksFor t (assignTopics cur cs) := by
  induction cs with
  | nil =>
    intro cur topics t
    simp [splitByTopicsAux, assignTopics, chunksFor]
  | cons c cs ih =>
    intro cur topics t
    simp only [splitByTopicsAux, assignTopics]
    rw [ih, bucketOf_insertChunk]
    by_cases h : t = updateTopic cur c
    · simp [chunksFor, List.filter_cons, h.symm, List.append_assoc]
    · have hne : ¬updateTopic cur c = t := fun hh => h hh.symm
      simp [chunksFor, List.filter_cons, h, hne]

/-- Inserting a chunk adds the key at the end of the dictionary when it
is new and keeps the key order otherwise. -/
theorem keysOf_insertChunk (topics : List (String × List String))
    (t c : String) :
    keysOf (insertChunk topics t c) =
      if t ∈ keysOf topics then keysOf topics else keysOf topics ++ [t] := by
  induction topics with
  | nil => simp [insertChunk, keysOf]
  | cons kv rest ih =>
    obtain ⟨k, v⟩ := kv
    by_cases hk : k = t
    · subst hk; simp [insertChunk, keysOf]
    · have hne : ¬t = k := fun hh => hk hh.symm
      by_cases hm : t ∈ keysOf rest
      · have hmem : t ∈ keysOf ((k, v) :: rest) := List.mem_cons_of_mem k hm
        rw [if_pos hmem]
        simp only [insertChunk, if_neg hk]
        show k :: keysOf (insertChunk rest t c) = keysOf ((k, v) :: rest)
        rw [ih, if_pos hm]
        rfl
      · have hmem : t ∉ keysOf ((k, v) :: rest) := by
          intro hh
          cases List.mem_cons.mp hh with
          | inl h1 => exact hne h1
          | inr h2 => exact hm h2
        rw [if_neg hmem]
        simp only [insertChunk, if_neg hk]
        show k :: keysOf (insertChunk rest t c) = keysOf ((k, v) :: rest) ++ [t]
        rw [ih, if_neg hm]
        rfl

/-- The dictionary keeps its keys pairwise distinct. -/
theorem keysOf_insertChunk_nodup (topics : List (String × List String))
    (t c : String) (h : (keysOf topics).Nodup) :
    (keysOf (insertChunk topics t c)).Nodup := by
  rw [keysOf_insertChunk]
  by_cases hm : t ∈ keysOf topics
  · simpa [hm] using h
  · simp only [if_neg hm]
    refine List.Nodup.append h (List.nodup_singleton t) ?_
    intro x hx hx'
    simp only [List.mem_singleton] at hx'
    exact hm (hx' ▸ hx)

/-- The whole scan keeps the dictionary's keys pairwise distinct. -/
theorem keysOf_splitByTopicsAux_nodup (cs : List String) :
    ∀ (cur : String) (topics : List (String × List String)),
    (keysOf topics).Nodup → (keysOf (splitByTopicsAux cs cur topics)).Nodup := by
  induction cs with
  | nil => intro cur topics h; simpa [splitByTopicsAux] using h
  | cons c cs ih =>
    intro cur topics h
    exact ih _ _ (keysOf_insertChunk_nodup topics (updateTopic cur c) c h)

/-- With pairwise-distinct keys, a stored pair's bucket is what
`bucketOf` reads back. -/
theorem bucketOf_of_mem (topics : List (String × List String))
    (k : String) (v : List String) (hnd : (keysOf topics).Nodup)
    (hmem : (k, v) ∈ topics) : bucketOf k topics = v := by
  induction topics with
  | nil => cases hmem
  | cons kv rest ih =>
    obtain ⟨k', v'⟩ := kv
    simp only [keysOf, List.map_cons, List.nodup_cons] at hnd
    cases List.mem_cons.mp hmem with
    | inl h =>
      obtain ⟨rfl, rfl⟩ := Prod.mk.injEq k' v' k v ▸ h.symm
      simp [bucketOf]
    | inr h =>
      have hk : k' ≠ k := by
        intro hh
        exact hnd.1 (hh ▸ List.mem_map_of_mem Prod.fst h)
      simp only [bucketOf, if_neg hk]
      exact ih hnd.2 h

/-- `firstOccAux` depends on the already-seen set only through
membership. -/
theorem firstOccAux_congr (l : List String) :
    ∀ seen seen', (∀ x, x ∈ seen ↔ x ∈ seen') →
    firstOccAux seen l = firstOccAux seen' l := by
  induction l with
  | nil => intro seen seen' _; rfl
  | cons t ts ih =>
    intro seen seen' h
    simp only [firstOccAux]
    by_cases hm : t ∈ seen
    · simp [hm, (h t).mp hm, ih seen seen' h]
    · have hm' : t ∉ seen' := fun hh => hm ((h t).mpr hh)
      simp only [if_neg hm, if_neg hm']
      rw [ih (t :: seen) (t :: seen') (by intro x; simp [h x])]

/-- The scan's key list is the existing keys followed by the first
occurrences of the newly assigned topics, in discovery order. -/
theorem keysOf_splitByTopicsAux (cs : List String) :
    ∀ (cur : String) (topics : List (String × List String)),
    keysOf (splitByTopicsAux cs cur topics) =
      keysOf topics ++
        firstOccAux (keysOf topics) ((assignTopics cur cs).map Prod.snd) := by
  induction cs with
  | nil =>
    intro cur topics
    simp [splitByTopicsAux, assignTopics, firstOccAux]
  | cons c cs ih =>
    intro cur topics
    simp only [splitByTopicsAux, assignTopics, List.map_cons]
    rw [ih, keysOf_insertChunk]
    by_cases h : updateTopic cur c ∈ keysOf topics
    · simp [h, firstOccAux]
    · simp only [if_neg h, firstOccAux]
      rw [firstOccAux_congr _ (keysOf topics ++ [updateTopic cur c])
        (updateTopic cur c :: keysOf topics) (by intro x; simp [or_comm])]
      simp [List.append_assoc]

/-- A chunk in which no indicator matches leaves the inner fold's
accumulator unchanged. -/
theorem foldl_update_id (c : String) (l : List String) :
    ∀ cur, (∀ ind ∈ l, markerIn c ind = false) →
    l.foldl (fun cc ind => if markerIn c ind then ind else cc) cur = cur := by
  induction l with
  | nil => intro cur _; rfl
  | cons i rest ih =>
    intro cur h
    have hi : markerIn c i = false := h i (by simp)
    simp only [List.foldl_cons, hi, Bool.false_eq_true, if_false]
    exact ih cur (fun ind hind => h ind (by simp [hind]))

/-- The inner fold either keeps the accumulator or lands on one of the
folded indicators. -/
theorem foldl_update_mem (c : String) (l : List String) :
    ∀ cur, l.foldl (fun cc ind => if markerIn c ind then ind else cc) cur = cur ∨
      l.foldl (fun cc ind => if markerIn c ind then ind else cc) cur ∈ l := by
  induction l with
  | nil => intro cur; exact Or.inl rfl
  | cons i rest ih =>
    intro cur
    simp only [List.foldl_cons]
    by_cases hi : markerIn c i
    · simp only [hi, if_true]
      cases ih i with
      | inl h => exact Or.inr (by simp [h])
      | inr h => exact Or.inr (by simp [h])
    · simp only [hi, if_false]
      cases ih cur with
      | inl h => exact Or.inl h
      | inr h => exact Or.inr (by simp [h])

/-- If some folded indicator matches the chunk, the fold's result is one
of the folded indicators. -/
theorem foldl_update_found (c : String) (l : List String) :
    ∀ cur, (∃ ind ∈ l, markerIn c ind = true) →
    l.foldl (fun cc ind => if markerIn c ind then ind else cc) cur ∈ l := by
  induction l with
  | nil => intro cur h; obtain ⟨_, hmem, _⟩ := h; cases hmem
  | cons i rest ih =>
    intro cur h
    simp only [List.foldl_cons]
    by_cases hi : markerIn c i
    · simp only [hi, if_true]
      cases foldl_update_mem c rest i with
      | inl hh => simp [hh]
      | inr hh => simp [hh]
    · simp only [hi, if_false]
      obtain ⟨ind, hmem, hind⟩ := h
      have : ind ∈ rest := by
        cases List.mem_cons.mp hmem with
        | inl hh => exact absurd (hh ▸ hind) (by simpa using hi)
        | inr hh => exact hh
      exact List.mem_cons_of_mem i (ih cur ⟨ind, this, hind⟩)

/-- C3: `split_by_topics` assigns topics statefully in a single pass over
the base chunks.  With `assignTopics` the spec-side pass that pairs every
chunk with the topic current after scanning it (initial topic `General`):
the returned buckets are labelled by the assigned topics in discovery
order; each bucket's content is the space-joined chunks assigned to its
topic and its `chunk_count` their number; a chunk containing no marker
leaves the current topic unchanged (so it lands in the most recently seen
topic's bucket); a chunk containing a marker moves the current topic to
one of the six indicators; and a run of marker-free chunks all keeps the
inherited topic — in particular chunks before any marker keep
`General`. -/
theorem split_by_topics_stateful_scan (chunks : List String) :
    ((split_by_topics chunks).map TopicChunk.topic =
      firstOcc ((assignTopics "General" chunks).map Prod.snd)) ∧
    (∀ tc ∈ split_by_topics chunks,
      tc.content =
        String.intercalate " " (chunksFor tc.topic (assignTopics "General" chunks)) ∧
      tc.chunk_count = (chunksFor tc.topic (assignTopics "General" chunks)).length) ∧
    (∀ cur c, (∀ ind ∈ topic_indicators, markerIn c ind = false) →
      updateTopic cur c = cur) ∧
    (∀ cur c, (∃ ind ∈ topic_indicators, markerIn c ind = true) →
      updateTopic cur c ∈ topic_indicators) ∧
    (∀ cur cs, (∀ c ∈ cs, ∀ ind ∈ topic_indicators, markerIn c ind = false) →
      ∀ p ∈ assignTopics cur cs, p.2 = cur) := by
  have hkeys : keysOf (splitByTopicsAux chunks "General" []) =
      firstOcc ((assignTopics "General" chunks).map Prod.snd) := by
    have := keysOf_splitByTopicsAux chunks "General" []
    simpa [keysOf, firstOcc] using this
  have hnodup : (keysOf (splitByTopicsAux chunks "General" [])).Nodup :=
    keysOf_splitByTopicsAux_nodup chunks "General" [] (by simp [keysOf])
  refine ⟨?_, ?_, ?_, ?_, ?_⟩
  · rw [← hkeys]
    simp [split_by_topics, keysOf, List.map_map]
  · intro tc htc
    simp only [split_by_topics, List.mem_map] at htc
    obtain ⟨p, hp, rfl⟩ := htc
    have hbucket : bucketOf p.1 (splitByTopicsAux chunks "General" []) = p.2 :=
      bucketOf_of_mem _ p.1 p.2 hnodup (by simpa using hp)
    have hchunks : p.2 = chunksFor p.1 (assignTopics "General" chunks) := by
      rw [← hbucket, bucketOf_splitByTopicsAux chunks "General" [] p.1]
      simp [bucketOf]
    exact ⟨by simp [hchunks], by simp [hchunks]⟩
  · intro cur c h
    exact foldl_update_id c topic_indicators cur h
  · intro cur c h
    exact foldl_update_found c topic_indicators cur h
  · intro cur cs
    induction cs generalizing cur with
    | nil => intro _ p hp; cases hp
    | cons c rest ih =>
      intro h p hp
      have hc : updateTopic cur c = cur :=
        foldl_update_id c topic_indicators cur (h c (by simp))
      simp only [assignTopics, hc] at hp
      cases List.mem_cons.mp hp with
      | inl hh => simp [hh]
      | inr hh => exact ih cur (fun c' hc' => h c' (by simp [hc'])) p hh

/-- C4, counterexample: on the sample text the base chunking yields a
single chunk (the text is far below the 512-token size target), so
`split_by_topics` returns one bucket — not the three buckets the claim
states. -/
theorem split_by_topics_sample_not_three_buckets :
    (split_by_topics sample_base_chunks).length = 1 ∧
    (split_by_topics sample_base_chunks).length ≠ 3 := by
  constructor
  · decide
  · decide

/-- C4, amended: on the sample text `split_by_topics` returns exactly one
topic bucket, labelled `PROPERTY INSURANCE` (the last of the three
markers scanned inside the single base chunk), whose content is the whole
sample and whose `chunk_count` is 1; no bucket is labelled `General`. -/
theorem split_by_topics_sample_single_bucket :
    split_by_topics sample_base_chunks =
      [⟨"PROPERTY INSURANCE", insurance_sample_text, 1⟩] ∧
    ∀ tc ∈ split_by_topics sample_base_chunks, tc.topic ≠ "General" := by
  constructor
  · decide
  · decide

/-! ### Chunk analytics (C5) -/

/-- A separator split always returns at least one segment. -/
theorem splitOnChar_ne_nil (sep : Char) (l : List Char) :
    splitOnChar sep l ≠ [] := by
  cases l with
  | nil => simp [splitOnChar]
  | cons c rest =>
    simp only [splitOnChar]
    cases h : splitOnChar sep rest with
    | nil => simp
    | cons seg segs => by_cases hc : c = sep <;> simp [hc]

/-- The number of `sep`-separated segments is the number of `sep`
occurrences plus one (Python's `len(s.split(sep))`). -/
theorem splitOnChar_length (sep : Char) (l : List Char) :
    (splitOnChar sep l).length = l.count sep + 1 := by
  induction l with
  | nil => simp [splitOnChar]
  | cons c rest ih =>
    obtain ⟨seg, segs, heq⟩ : ∃ seg segs, splitOnChar sep rest = seg :: segs := by
      cases h : splitOnChar sep rest with
      | nil => exact absurd h (splitOnChar_ne_nil sep rest)
      | cons a b => exact ⟨a, b, rfl⟩
    rw [heq] at ih
    simp only [List.length_cons] at ih
    simp only [splitOnChar, heq]
    by_cases hc : c = sep
    · simp [hc, List.count_cons, ih]
    · simp [List.count_cons, hc, ih]

/-- Every token Python's no-argument split returns is non-empty and free
of whitespace. -/
theorem pyWordsAux_words (l : List Char) :
    ∀ acc, (∀ ch ∈ acc, pyIsSpace ch = false) →
    ∀ w ∈ pyWordsAux acc l, w ≠ [] ∧ ∀ ch ∈ w, pyIsSpace ch = false := by
  induction l with
  | nil =>
    intro acc hacc w hw
    simp only [pyWordsAux] at hw
    by_cases he : acc.isEmpty
    · simp [he] at hw
    · simp only [he, Bool.false_eq_true, if_false, List.mem_singleton] at hw
      subst hw
      refine ⟨?_, fun ch hch => hacc ch (List.mem_reverse.mp hch)⟩
      intro hrev
      exact he (List.isEmpty_iff.mpr (List.reverse_eq_nil_iff.mp hrev))
  | cons c rest ih =>
    intro acc hacc w hw
    simp only [pyWordsAux] at hw
    by_cases hc : pyIsSpace c
    · simp only [hc, if_true] at hw
      by_cases he : acc.isEmpty
      · simp only [he, if_true] at hw
        exact ih [] (by simp) w hw
      · simp only [he, Bool.false_eq_true, if_false] at hw
        cases List.mem_cons.mp hw with
        | inl h =>
          subst h
          refine ⟨?_, fun ch hch => hacc ch (List.mem_reverse.mp hch)⟩
          intro hrev
          exact he (List.isEmpty_iff.mpr (List.reverse_eq_nil_iff.mp hrev))
        | inr h => exact ih [] (by simp) w h
    · simp only [hc, Bool.false_eq_true, if_false] at hw
      refine ih (c :: acc) ?_ w hw
      intro ch hch
      cases List.mem_cons.mp hch with
      | inl h => subst h; simpa using hc
      | inr h => exact hacc ch h

/-- The analysis loop produces one record per chunk. -/
theorem analyzeChunksAux_length (cs : List String) :
    ∀ i, (analyzeChunksAux i cs).length = cs.length := by
  induction cs with
  | nil => intro i; rfl
  | cons c cs ih => intro i; simp [analyzeChunksAux, ih]

/-- The record at position `j` of the analysis loop started at index `i`
is the analysis of the chunk at position `j`, numbered `i + j`. -/
theorem analyzeChunksAux_get (cs : List String) :
    ∀ i j, (analyzeChunksAux i cs).get? j =
      (cs.get? j).map (fun c => analyzeOne (i + j) c) := by
  induction cs with
  | nil => intro i j; simp [analyzeChunksAux]
  | cons c cs ih =>
    intro i j
    cases j with
    | zero => simp [analyzeChunksAux]
    | succ k =>
      simp only [analyzeChunksAux, List.get?_cons_succ]
      rw [ih (i + 1) k]
      have hik : i + 1 + k = i + (k + 1) := by omega
      rw [hik]

/-- C5: `analyze_chunks` returns one record per chunk in input order;
record `i` carries the chunk's exact character count, the number of
`'.'`-separated segments (one more than the number of `'.'` characters),
the number of whitespace-separated tokens (each token non-empty and
whitespace-free), and a preview equal to the first 100 characters
followed by `"..."` — in particular, for a chunk shorter than 100
characters the preview is the full chunk text plus `"..."`. -/
theorem analyze_chunks_records (chunks : List String) :
    (analyze_chunks chunks).length = chunks.length ∧
    (∀ i c r, chunks.get? i = some c → (analyze_chunks chunks).get? i = some r →
      r.chunk_id = i ∧
      r.length = c.data.length ∧
      r.sentences = (splitOnChar '.' c.data).length ∧
      r.sentences = c.data.count '.' + 1 ∧
      r.words = (pyWords c.data).length ∧
      r.preview = String.mk (c.data.take 100) ++ "..." ∧
      (c.data.length < 100 → r.preview = c ++ "...")) ∧
    (∀ l, ∀ w ∈ pyWords l, w ≠ [] ∧ ∀ ch ∈ w, pyIsSpace ch = false) := by
  refine ⟨analyzeChunksAux_length chunks 0, ?_, ?_⟩
  · intro i c r hc hr
    have hget := analyzeChunksAux_get chunks 0 i
    rw [show analyze_chunks chunks = analyzeChunksAux 0 chunks from rfl, hget, hc] at hr
    simp at hr
    subst hr
    refine ⟨by simp [analyzeOne], rfl, rfl, ?_, rfl, rfl, ?_⟩
    · exact splitOnChar_length '.' c.data
    · intro hlen
      have htake : c.data.take 100 = c.data := List.take_of_length_le (le_of_lt hlen)
      show String.mk (c.data.take 100) ++ "..." = c ++ "..."
      rw [htake]
  · intro l w hw
    exact pyWordsAux_words l [] (by simp) w hw

end GraphRAG
